import Mathlib

/-!
Verification of the draft-analysis core of `src/draft.py`.

The Python program analyzes fantasy-football draft picks against season-end
performance.  We shallowly embed its core data model and operations:

* Python `dict` values become association lists `List (String × β)` with
  Python's semantics: `alookup` is key lookup (first match; keys built by
  `aset` are unique), `aset` overwrites an existing key in place or appends a
  new key at the end, exactly as dict assignment does.
* A Python `KeyError` becomes `Option.none`, so every function that can raise
  on a missing key returns an `Option`.
* `float` season points become `Rat`: the program never does arithmetic on
  them, it only compares them while sorting, so any linearly ordered field is
  a faithful model of the (finite, non-NaN) float ordering.
* Python's stable `sorted(..., reverse=True)` becomes `List.mergeSort` with
  the corresponding descending comparator.
-/

/-- `DraftPick` from `src/draft.py` (lines 31-37). -/
structure DraftPick where
  id : String
  team_name : String
  first_name : String
  last_name : String
  overall_pick : Int
deriving DecidableEq, Repr

/-- `YahooPlayerData` from `src/draft.py` (lines 40-52), minus the JSON
methods which are defined below. -/
structure YahooPlayerData where
  id : String
  position : String
  season_points : Rat
deriving DecidableEq, Repr

/-- `PlayerAnalysis` from `src/draft.py` (lines 55-66). -/
structure PlayerAnalysis where
  id : String
  team_name : String
  first_name : String
  last_name : String
  position : String
  overall_pick : Int
  season_points : Rat
  draft_position_rank : Nat
  season_end_position_rank : Nat
  differential : Int
deriving DecidableEq, Repr

/-- Python dict lookup `m[k]`: the unique binding of `k`, or `none`
(a `KeyError`). -/
def alookup {β : Type} (k : String) : List (String × β) → Option β
  | [] => none
  | p :: rest => if p.1 = k then some p.2 else alookup k rest

/-- Python dict assignment `m[k] = v`: overwrite in place if the key exists,
else append the new binding at the end (dicts preserve insertion order). -/
def aset {β : Type} (k : String) (v : β) : List (String × β) → List (String × β)
  | [] => [(k, v)]
  | p :: rest => if p.1 = k then (k, v) :: rest else p :: aset k v rest

/-- `sorted(player_data.values(), key=lambda p: p.season_points, reverse=True)`
from `src/draft.py` line 168: a stable descending sort by season points. -/
def sortPlayersByPoints (l : List YahooPlayerData) : List YahooPlayerData :=
  l.mergeSort (fun a b => decide (b.season_points ≤ a.season_points))

/-- The fixed position set used by `curr_position_ranks` in
`src/draft.py` lines 160-167. -/
def positions : List String := ["QB", "RB", "WR", "TE", "K", "DEF"]

/-- The initial `curr_position_ranks` dict of `src/draft.py` lines 160-167:
every recognized position starts at rank 1. -/
def initRanks : List (String × Nat) := [("QB", 1), ("RB", 1), ("WR", 1), ("TE", 1), ("K", 1), ("DEF", 1)]

/-- The `for player in players_sorted` loop of `src/draft.py` lines 170-172:
assign each player the current rank of its position and bump that counter.
`alookup q.position curr = none` is the `KeyError` raised on an unrecognized
position. -/
def rankLoop : List YahooPlayerData → List (String × Nat) → List (String × Nat) → Option (List (String × Nat))
  | [], _, acc => some acc
  | q :: rest, curr, acc =>
    match alookup q.position curr with
    | none => none
    | some r => rankLoop rest (aset q.position (r + 1) curr) (aset q.id r acc)

/-- `_get_player_position_season_point_ranks` from `src/draft.py`
lines 158-174. -/
def get_player_position_season_point_ranks (player_data : List (String × YahooPlayerData)) : Option (List (String × Nat)) :=
  rankLoop (sortPlayersByPoints (player_data.map Prod.snd)) initRanks []

/-- The `for pick in draft_picks` loop of `get_player_analysis`,
`src/draft.py` lines 144-153.  `curr` is the
`curr_draft_player_position_ranks` defaultdict (missing key reads as 1);
the two `none` branches are the `KeyError`s of `player_data[pick.id]` and
`player_season_points_ranks[pick.id]`. -/
def pickLoop (player_data : List (String × YahooPlayerData)) (season_ranks : List (String × Nat)) :
    List DraftPick → List (String × Nat) → List PlayerAnalysis → Option (List PlayerAnalysis)
  | [], _, acc => some acc
  | pick :: rest, curr, acc =>
    match alookup pick.id player_data with
    | none => none
    | some pd =>
      let draft_position_rank := (alookup pd.position curr).getD 1
      let curr2 := aset pd.position (draft_position_rank + 1) curr
      match alookup pick.id season_ranks with
      | none => none
      | some season_rank =>
        pickLoop player_data season_ranks rest curr2
          (acc ++ [⟨pick.id, pick.team_name, pick.first_name, pick.last_name, pd.position,
                    pick.overall_pick, pd.season_points, draft_position_rank, season_rank,
                    (draft_position_rank : Int) - (season_rank : Int)⟩])

/-- `get_player_analysis` from `src/draft.py` lines 139-155. -/
def get_player_analysis (draft_picks : List DraftPick) (player_data : List (String × YahooPlayerData)) : Option (List PlayerAnalysis) :=
  match get_player_position_season_point_ranks player_data with
  | none => none
  | some season_ranks => pickLoop player_data season_ranks draft_picks [] []

/-- One step of the grouping loop of `get_players_by_team`,
`src/draft.py` lines 179-180: `teams[player.team_name].append(player)` on a
`defaultdict(list)`. -/
def addToTeam (teams : List (String × List PlayerAnalysis)) (a : PlayerAnalysis) : List (String × List PlayerAnalysis) :=
  aset a.team_name ((alookup a.team_name teams).getD [] ++ [a]) teams

/-- `get_players_by_team` from `src/draft.py` lines 177-185: group players by
team name, then stably sort each team's list by `overall_pick` ascending. -/
def get_players_by_team (players : List PlayerAnalysis) : List (String × List PlayerAnalysis) :=
  (players.foldl addToTeam []).map
    (fun e => (e.1, e.2.mergeSort (fun x y => decide (x.overall_pick ≤ y.overall_pick))))

/-- One step of the accumulation loop of `get_team_differentials`,
`src/draft.py` lines 191-192:
`team_differentials[player.team_name] += player.differential` on a
`defaultdict(lambda: 0)`. -/
def addDiff (m : List (String × Int)) (a : PlayerAnalysis) : List (String × Int) :=
  aset a.team_name ((alookup a.team_name m).getD 0 + a.differential) m

/-- `get_team_differentials` from `src/draft.py` lines 188-194. -/
def get_team_differentials (players : List PlayerAnalysis) : List (String × Int) :=
  players.foldl addDiff []

/-- Reading `d[k]` on the `defaultdict(lambda: 0)` returned by
`get_team_differentials`: a missing key yields the default 0 instead of a
`KeyError`. -/
def defaultdictGetInt (m : List (String × Int)) (k : String) : Int :=
  (alookup k m).getD 0

/-- Reading `d[k]` on the `defaultdict(list)` returned by
`get_players_by_team`: a missing key yields the default `[]` instead of a
`KeyError`. -/
def defaultdictGetList (m : List (String × List PlayerAnalysis)) (k : String) : List PlayerAnalysis :=
  (alookup k m).getD []

/-- JSON values, as far as this program's serialization needs them.  The
textual layer (`json.dumps` of a tree followed by `json.loads`) is the
identity on such trees and is modelled as such. -/
inductive JsonValue where
  | jstr : String → JsonValue
  | jnum : Rat → JsonValue
  | jobj : List (String × JsonValue) → JsonValue

/-- `YahooPlayerData.to_json` from `src/draft.py` lines 51-52:
`json.dumps(self, default=lambda o: o.__dict__)` serializes the dataclass as
an object with its three fields in declaration order. -/
def YahooPlayerData.to_json (p : YahooPlayerData) : JsonValue :=
  JsonValue.jobj [("id", JsonValue.jstr p.id), ("position", JsonValue.jstr p.position),
                  ("season_points", JsonValue.jnum p.season_points)]

/-- `YahooPlayerData.from_json_string` from `src/draft.py` lines 46-49: parse
the JSON object and read the fields `id`, `position`, `season_points`
(a missing field is a `KeyError`, hence `none`). -/
def YahooPlayerData.from_json_string (j : JsonValue) : Option YahooPlayerData :=
  match j with
  | JsonValue.jobj fields =>
    match alookup "id" fields, alookup "position" fields, alookup "season_points" fields with
    | some (JsonValue.jstr i), some (JsonValue.jstr pos), some (JsonValue.jnum pts) =>
      some ⟨i, pos, pts⟩
    | _, _, _ => none
  | _ => none

example : YahooPlayerData.from_json_string (YahooPlayerData.to_json ⟨"p1", "QB", 3⟩) = some ⟨"p1", "QB", 3⟩ := by
  decide

example :
    get_player_analysis
      [⟨"1", "A", "f", "l", 1⟩, ⟨"2", "A", "f2", "l2", 2⟩]
      [("1", ⟨"1", "QB", 300⟩), ("2", ⟨"2", "QB", 200⟩)] =
    some [⟨"1", "A", "f", "l", "QB", 1, 300, 1, 1, 0⟩,
          ⟨"2", "A", "f2", "l2", "QB", 2, 200, 2, 2, 0⟩] := by
  have hsort : sortPlayersByPoints [⟨"1", "QB", 300⟩, ⟨"2", "QB", 200⟩] =
      [⟨"1", "QB", 300⟩, ⟨"2", "QB", 200⟩] := by
    simp [sortPlayersByPoints, List.mergeSort, List.merge]
    norm_num
  simp only [get_player_analysis, get_player_position_season_point_ranks, List.map, hsort]
  decide

section DictLemmas

variable {β : Type}

theorem alookup_aset_self (k : String) (v : β) (m : List (String × β)) :
    alookup k (aset k v m) = some v := by
  induction m with
  | nil => simp [alookup, aset]
  | cons p rest ih =>
    by_cases h : p.1 = k
    · simp [alookup, aset, h]
    · simp [alookup, aset, h, ih]

theorem alookup_aset_ne (k k' : String) (v : β) (m : List (String × β)) (h : k' ≠ k) :
    alookup k' (aset k v m) = alookup k' m := by
  have hk : ¬ k = k' := fun hh => h hh.symm
  induction m with
  | nil => simp [alookup, aset, hk]
  | cons p rest ih =>
    by_cases hp : p.1 = k
    · subst hp
      simp [alookup, aset, hk]
    · simp [alookup, aset, hp, ih]

theorem alookup_aset_isSome (p k : String) (v : β) (m : List (String × β)) :
    (alookup p (aset k v m)).isSome ↔ p = k ∨ (alookup p m).isSome := by
  by_cases h : p = k
  · subst h; simp [alookup_aset_self]
  · simp [alookup_aset_ne _ _ _ _ h, h]

theorem alookup_eq_none_iff (k : String) (m : List (String × β)) :
    alookup k m = none ↔ k ∉ m.map Prod.fst := by
  induction m with
  | nil => simp [alookup]
  | cons p rest ih =>
    by_cases h : p.1 = k
    · subst h; simp [alookup]
    · have h' : ¬ k = p.1 := fun hh => h hh.symm
      simp [alookup, h, h', ih]

theorem alookup_isSome_iff (k : String) (m : List (String × β)) :
    (alookup k m).isSome ↔ k ∈ m.map Prod.fst := by
  cases h : alookup k m with
  | none => simp [(alookup_eq_none_iff k m).1 h]
  | some v =>
    simp only [Option.isSome_some, true_iff]
    by_contra hmem
    rw [← alookup_eq_none_iff, h] at hmem
    exact Option.noConfusion hmem

theorem aset_map_fst_of_mem (k : String) (v : β) (m : List (String × β))
    (h : k ∈ m.map Prod.fst) : (aset k v m).map Prod.fst = m.map Prod.fst := by
  induction m with
  | nil => simp at h
  | cons p rest ih =>
    by_cases hp : p.1 = k
    · simp [aset, hp]
    · simp only [List.map_cons, List.mem_cons] at h
      rcases h with h | h
      · exact absurd h.symm hp
      · simp [aset, hp, ih h]

theorem aset_map_fst_of_not_mem (k : String) (v : β) (m : List (String × β))
    (h : k ∉ m.map Prod.fst) : (aset k v m).map Prod.fst = m.map Prod.fst ++ [k] := by
  induction m with
  | nil => simp [aset]
  | cons p rest ih =>
    simp only [List.map_cons, List.mem_cons] at h
    push_neg at h
    by_cases hp : p.1 = k
    · exact absurd hp.symm h.1
    · simp [aset, hp, ih h.2]

theorem nodup_keys_aset (k : String) (v : β) (m : List (String × β))
    (h : (m.map Prod.fst).Nodup) : ((aset k v m).map Prod.fst).Nodup := by
  by_cases hk : k ∈ m.map Prod.fst
  · rw [aset_map_fst_of_mem _ _ _ hk]; exact h
  · rw [aset_map_fst_of_not_mem _ _ _ hk]
    simp [List.nodup_append, h, hk]

theorem alookup_of_mem_nodup (k : String) (v : β) (m : List (String × β))
    (hmem : (k, v) ∈ m) (hnd : (m.map Prod.fst).Nodup) : alookup k m = some v := by
  induction m with
  | nil => simp at hmem
  | cons p rest ih =>
    simp only [List.map_cons, List.nodup_cons] at hnd
    rcases List.mem_cons.1 hmem with h | h
    · subst h; simp [alookup]
    · have hne : p.1 ≠ k := by
        intro hh
        exact hnd.1 (hh ▸ (List.mem_map.2 ⟨(k, v), h, rfl⟩))
      simp [alookup, hne, ih h hnd.2]

theorem alookup_mem (k : String) (v : β) (m : List (String × β))
    (h : alookup k m = some v) : (k, v) ∈ m := by
  induction m with
  | nil => simp [alookup] at h
  | cons p rest ih =>
    by_cases hp : p.1 = k
    · simp [alookup, hp] at h
      cases p with
      | mk a b =>
        simp only at hp
        subst hp
        subst h
        exact List.mem_cons_self _ _
    · simp [alookup, hp] at h
      exact List.mem_cons_of_mem _ (ih h)

end DictLemmas

theorem sortPlayersByPoints_perm (l : List YahooPlayerData) :
    List.Perm (sortPlayersByPoints l) l :=
  List.mergeSort_perm l _

theorem sortPlayersByPoints_sorted (l : List YahooPlayerData) :
    (sortPlayersByPoints l).Pairwise (fun a b => b.season_points ≤ a.season_points) := by
  have h := @List.sorted_mergeSort YahooPlayerData
    (fun a b => decide (b.season_points ≤ a.season_points)) ?_ ?_ l
  · simpa [sortPlayersByPoints] using h
  · intro a b c hab hbc
    simp only [decide_eq_true_eq] at *
    exact le_trans hbc hab
  · intro a b
    simp only [Bool.or_eq_true, decide_eq_true_eq]
    exact le_total _ _

/-- Main invariant of the season-rank loop (`src/draft.py` lines 170-172).
Starting from a counter state `curr` that maps every recognized position `p`
to `f p`, the loop succeeds on any list of players with recognized positions
and distinct ids, leaves unrelated keys of the accumulator untouched, maps the
players of each position, in list order, to the consecutive ranks
`f p, f p + 1, ...`, and assigns every processed player a rank. -/
theorem rankLoop_spec (l : List YahooPlayerData) :
    ∀ (curr : List (String × Nat)) (acc : List (String × Nat)) (f : String → Nat),
    (∀ q ∈ l, q.position ∈ positions) →
    (∀ p ∈ positions, alookup p curr = some (f p)) →
    (l.map YahooPlayerData.id).Nodup →
    ∃ m, rankLoop l curr acc = some m ∧
      (∀ i : String, i ∉ l.map YahooPlayerData.id → alookup i m = alookup i acc) ∧
      (∀ p : String,
        (l.filter (fun q => decide (q.position = p))).map (fun q => (alookup q.id m).getD 0) =
          List.range' (f p) ((l.filter (fun q => decide (q.position = p))).length)) ∧
      (∀ q ∈ l, alookup q.id m = some ((alookup q.id m).getD 0)) := by
  induction l with
  | nil =>
    intro curr acc f _ _ _
    exact ⟨acc, rfl, fun _ _ => rfl, fun p => by simp, fun q hq => absurd hq (by simp)⟩
  | cons q rest ih =>
    intro curr acc f h1 h2 hnd
    have hq : q.position ∈ positions := h1 q (List.mem_cons_self _ _)
    have hlook : alookup q.position curr = some (f q.position) := h2 _ hq
    simp only [List.map_cons, List.nodup_cons] at hnd
    obtain ⟨hqid, hndrest⟩ := hnd
    have h2' : ∀ p ∈ positions,
        alookup p (aset q.position (f q.position + 1) curr) =
          some (if p = q.position then f p + 1 else f p) := by
      intro p hp
      by_cases hpq : p = q.position
      · subst hpq; simp [alookup_aset_self]
      · simp [alookup_aset_ne _ _ _ _ hpq, hpq, h2 p hp]
    obtain ⟨m, hrun, huntouched, hranges, hdom⟩ :=
      ih (aset q.position (f q.position + 1) curr) (aset q.id (f q.position) acc)
        (fun p => if p = q.position then f p + 1 else f p)
        (fun q' hq' => h1 q' (List.mem_cons_of_mem _ hq')) h2' hndrest
    have hq_lookup : alookup q.id m = some (f q.position) := by
      rw [huntouched q.id hqid, alookup_aset_self]
    refine ⟨m, ?_, ?_, ?_, ?_⟩
    · simp only [rankLoop, hlook]
      exact hrun
    · intro i hi
      simp only [List.map_cons, List.mem_cons] at hi
      push_neg at hi
      rw [huntouched i hi.2, alookup_aset_ne _ _ _ _ hi.1]
    · intro p
      by_cases hqp : q.position = p
      · subst hqp
        have hfil : List.filter (fun q' => decide (q'.position = q.position)) (q :: rest) =
            q :: List.filter (fun q' => decide (q'.position = q.position)) rest := by
          simp [List.filter_cons]
        rw [hfil]
        simp only [List.map_cons, List.length_cons]
        rw [List.range'_succ, hq_lookup]
        simpa using hranges q.position
      · have hne : ¬ p = q.position := fun h => hqp h.symm
        have hfil : List.filter (fun q' => decide (q'.position = p)) (q :: rest) =
            List.filter (fun q' => decide (q'.position = p)) rest := by
          simp [List.filter_cons, hqp]
        rw [hfil]
        simpa [hne] using hranges p
    · intro q' hq'
      rcases List.mem_cons.1 hq' with h | h
      · subst h; rw [hq_lookup]; rfl
      · exact hdom q' h

/-- Derived specification of `_get_player_position_season_point_ranks`
(`src/draft.py` lines 158-174): on a stats dict whose entries all carry a
recognized position and distinct ids, the computation succeeds, assigns a
rank to every player, the ranks of each position's players form a
permutation of `1..k` (`k` the number of players at that position), and a
player with strictly more season points than another player of the same
position gets a strictly smaller rank. -/
theorem season_ranks_spec (player_data : List (String × YahooPlayerData))
    (hpos : ∀ e ∈ player_data, (Prod.snd e).position ∈ positions)
    (hids : ((player_data.map Prod.snd).map YahooPlayerData.id).Nodup) :
    ∃ m, get_player_position_season_point_ranks player_data = some m ∧
      (∀ q ∈ player_data.map Prod.snd, alookup q.id m = some ((alookup q.id m).getD 0)) ∧
      (∀ p : String, List.Perm
        (((player_data.map Prod.snd).filter (fun q => decide (q.position = p))).map
          (fun q => (alookup q.id m).getD 0))
        (List.range' 1
          (((player_data.map Prod.snd).filter (fun q => decide (q.position = p))).length))) ∧
      (∀ q1 ∈ player_data.map Prod.snd, ∀ q2 ∈ player_data.map Prod.snd,
        q1.position = q2.position → q2.season_points < q1.season_points →
        (alookup q1.id m).getD 0 < (alookup q2.id m).getD 0) := by
  have hperm : List.Perm (sortPlayersByPoints (player_data.map Prod.snd)) (player_data.map Prod.snd) :=
    sortPlayersByPoints_perm _
  have hpos' : ∀ q ∈ sortPlayersByPoints (player_data.map Prod.snd), q.position ∈ positions := by
    intro q hq
    obtain ⟨e, he, rfl⟩ := List.mem_map.1 (hperm.mem_iff.1 hq)
    exact hpos e he
  have hnd' : ((sortPlayersByPoints (player_data.map Prod.snd)).map YahooPlayerData.id).Nodup :=
    ((hperm.map YahooPlayerData.id).nodup_iff).2 hids
  have hinit : ∀ p ∈ positions, alookup p initRanks = some ((fun _ => 1) p) := by decide
  obtain ⟨m, hrun, _, hranges, hdom⟩ :=
    rankLoop_spec (sortPlayersByPoints (player_data.map Prod.snd)) initRanks [] (fun _ => 1)
      hpos' hinit hnd'
  refine ⟨m, hrun, ?_, ?_, ?_⟩
  · intro q hq
    exact hdom q (hperm.mem_iff.2 hq)
  · intro p
    have hfp := hperm.filter (fun q => decide (q.position = p))
    have hlen := hfp.length_eq
    refine List.Perm.trans (hfp.map (fun q => (alookup q.id m).getD 0)).symm ?_
    rw [hranges p, hlen]
  · intro q1 hq1 q2 hq2 hp12 hlt
    have hq1s : q1 ∈ (sortPlayersByPoints (player_data.map Prod.snd)).filter
        (fun q => decide (q.position = q1.position)) :=
      List.mem_filter.2 ⟨hperm.mem_iff.2 hq1, by simp⟩
    have hq2s : q2 ∈ (sortPlayersByPoints (player_data.map Prod.snd)).filter
        (fun q => decide (q.position = q1.position)) :=
      List.mem_filter.2 ⟨hperm.mem_iff.2 hq2, by simp [← hp12]⟩
    have hpair : ((sortPlayersByPoints (player_data.map Prod.snd)).filter
        (fun q => decide (q.position = q1.position))).Pairwise
        (fun a b => b.season_points ≤ a.season_points) :=
      (sortPlayersByPoints_sorted _).filter _
    obtain ⟨i, hi⟩ := List.mem_iff_get.1 hq1s
    obtain ⟨j, hj⟩ := List.mem_iff_get.1 hq2s
    have hij : (i : Nat) < (j : Nat) := by
      rcases lt_trichotomy (i : Nat) (j : Nat) with h | h | h
      · exact h
      · exfalso
        have heq : q1 = q2 := by rw [← hi, ← hj]; exact congrArg _ (Fin.ext h)
        rw [heq] at hlt
        exact lt_irrefl _ hlt
      · exfalso
        have hle := List.pairwise_iff_get.1 hpair j i h
        rw [hi, hj] at hle
        exact absurd hle (not_le.2 hlt)
    have hmap := hranges q1.position
    have hi' : (i : Nat) < (((sortPlayersByPoints (player_data.map Prod.snd)).filter
        (fun q => decide (q.position = q1.position))).map
        (fun q => (alookup q.id m).getD 0)).length := by simp
    have hj' : (j : Nat) < (((sortPlayersByPoints (player_data.map Prod.snd)).filter
        (fun q => decide (q.position = q1.position))).map
        (fun q => (alookup q.id m).getD 0)).length := by simp
    have hkey1 := List.get_of_eq hmap ⟨i, hi'⟩
    have hkey2 := List.get_of_eq hmap ⟨j, hj'⟩
    simp only [List.get_eq_getElem, List.getElem_map, List.getElem_range'] at hkey1 hkey2
    simp only [List.get_eq_getElem] at hi hj
    rw [hi] at hkey1
    rw [hj] at hkey2
    rw [hkey1, hkey2]
    omega

/-- The pointwise relation between a draft pick and the `PlayerAnalysis`
emitted for it by `get_player_analysis` (`src/draft.py` line 152): identity
and pick fields are copied from the pick, position and season points from the
pick's stats entry, the season rank is the one recorded for the pick's id,
and the differential is exactly draft rank minus season rank. -/
def pickRel (player_data : List (String × YahooPlayerData)) (season_ranks : List (String × Nat))
    (pick : DraftPick) (a : PlayerAnalysis) : Prop :=
  a.id = pick.id ∧ a.team_name = pick.team_name ∧ a.first_name = pick.first_name ∧
  a.last_name = pick.last_name ∧ a.overall_pick = pick.overall_pick ∧
  (∃ pd, alookup pick.id player_data = some pd ∧ a.position = pd.position ∧
    a.season_points = pd.season_points) ∧
  alookup pick.id season_ranks = some a.season_end_position_rank ∧
  a.differential = (a.draft_position_rank : Int) - (a.season_end_position_rank : Int)

/-- Main invariant of the pick loop of `get_player_analysis`
(`src/draft.py` lines 144-153).  When every pick's id has a stats entry and a
season rank, the loop succeeds, appends one analysis per pick in order
(related to its pick by `pickRel`), and hands the players of each position,
in draft order, the consecutive draft ranks starting at that position's
current counter (a missing counter reads as 1, the defaultdict default). -/
theorem pickLoop_spec (player_data : List (String × YahooPlayerData)) (season_ranks : List (String × Nat)) :
    ∀ (picks : List DraftPick) (curr : List (String × Nat)) (acc : List PlayerAnalysis),
    (∀ pick ∈ picks, (alookup pick.id player_data).isSome ∧ (alookup pick.id season_ranks).isSome) →
    ∃ out, pickLoop player_data season_ranks picks curr acc = some (acc ++ out) ∧
      List.Forall₂ (pickRel player_data season_ranks) picks out ∧
      (∀ p : String,
        (out.filter (fun a => decide (a.position = p))).map PlayerAnalysis.draft_position_rank =
          List.range' ((alookup p curr).getD 1)
            ((out.filter (fun a => decide (a.position = p))).length)) := by
  intro picks
  induction picks with
  | nil =>
    intro curr acc _
    exact ⟨[], by simp [pickLoop], List.Forall₂.nil, fun p => by simp⟩
  | cons pick rest ih =>
    intro curr acc hcov
    obtain ⟨hpdSome, hsrSome⟩ := hcov pick (List.mem_cons_self _ _)
    obtain ⟨pd, hpd⟩ := Option.isSome_iff_exists.1 hpdSome
    obtain ⟨srank, hsr⟩ := Option.isSome_iff_exists.1 hsrSome
    obtain ⟨out', hrun, hrel, hranges⟩ :=
      ih (aset pd.position ((alookup pd.position curr).getD 1 + 1) curr)
        (acc ++ [⟨pick.id, pick.team_name, pick.first_name, pick.last_name, pd.position,
                  pick.overall_pick, pd.season_points, (alookup pd.position curr).getD 1, srank,
                  ((alookup pd.position curr).getD 1 : Int) - (srank : Int)⟩])
        (fun pk hpk => hcov pk (List.mem_cons_of_mem _ hpk))
    refine ⟨⟨pick.id, pick.team_name, pick.first_name, pick.last_name, pd.position,
             pick.overall_pick, pd.season_points, (alookup pd.position curr).getD 1, srank,
             ((alookup pd.position curr).getD 1 : Int) - (srank : Int)⟩ :: out', ?_, ?_, ?_⟩
    · simp only [pickLoop, hpd, hsr]
      rw [hrun]
      simp
    · refine List.Forall₂.cons ?_ hrel
      exact ⟨rfl, rfl, rfl, rfl, rfl, ⟨pd, hpd, rfl, rfl⟩, hsr, rfl⟩
    · intro p
      by_cases hp : pd.position = p
      · subst hp
        have hfil : List.filter (fun a => decide (a.position = pd.position))
            (⟨pick.id, pick.team_name, pick.first_name, pick.last_name, pd.position,
              pick.overall_pick, pd.season_points, (alookup pd.position curr).getD 1, srank,
              ((alookup pd.position curr).getD 1 : Int) - (srank : Int)⟩ :: out') =
            ⟨pick.id, pick.team_name, pick.first_name, pick.last_name, pd.position,
              pick.overall_pick, pd.season_points, (alookup pd.position curr).getD 1, srank,
              ((alookup pd.position curr).getD 1 : Int) - (srank : Int)⟩ ::
            List.filter (fun a => decide (a.position = pd.position)) out' := by
          simp [List.filter_cons]
        rw [hfil]
        simp only [List.map_cons, List.length_cons]
        rw [List.range'_succ]
        have := hranges pd.position
        rw [alookup_aset_self] at this
        simpa using this
      · have hfil : List.filter (fun a => decide (a.position = p))
            (⟨pick.id, pick.team_name, pick.first_name, pick.last_name, pd.position,
              pick.overall_pick, pd.season_points, (alookup pd.position curr).getD 1, srank,
              ((alookup pd.position curr).getD 1 : Int) - (srank : Int)⟩ :: out') =
            List.filter (fun a => decide (a.position = p)) out' := by
          simp [List.filter_cons, hp]
        rw [hfil]
        have := hranges p
        rw [alookup_aset_ne _ _ _ _ (fun h => hp h.symm)] at this
        exact this

theorem forall₂_mem_right {α β : Type} {R : α → β → Prop} :
    ∀ {l1 : List α} {l2 : List β}, List.Forall₂ R l1 l2 → ∀ b ∈ l2, ∃ a ∈ l1, R a b := by
  intro l1 l2 h
  induction h with
  | nil => intro b hb; exact absurd hb (by simp)
  | cons hR _ ih =>
    intro b hb
    rcases List.mem_cons.1 hb with h | h
    · exact ⟨_, List.mem_cons_self _ _, h ▸ hR⟩
    · obtain ⟨a, ha, hr⟩ := ih b h
      exact ⟨a, List.mem_cons_of_mem _ ha, hr⟩

theorem forall₂_map_eq {α β γ : Type} {R : α → β → Prop} (g : β → γ) (h : α → γ) :
    ∀ {l1 : List α} {l2 : List β}, List.Forall₂ R l1 l2 → (∀ a b, R a b → g b = h a) →
    l2.map g = l1.map h := by
  intro l1 l2 hf
  induction hf with
  | nil => intro _; rfl
  | cons hR _ ih =>
    intro hgh
    simp only [List.map_cons]
    rw [hgh _ _ hR, ih hgh]

/-- Derived specification of `get_player_analysis` (`src/draft.py`
lines 139-155) on a well-formed input: the stats dict has distinct keys, each
entry's `id` field equals its key, every position is recognized, and every
pick's id has a stats entry.  Then the season ranks and the whole analysis
succeed, every pick produces its related analysis in order (`pickRel`), and
the players of each position receive draft ranks `1, 2, ...` in draft
order. -/
theorem analysis_spec (draft_picks : List DraftPick) (player_data : List (String × YahooPlayerData))
    (hkeyid : ∀ e ∈ player_data, (Prod.snd e).id = Prod.fst e)
    (hpos : ∀ e ∈ player_data, (Prod.snd e).position ∈ positions)
    (hkeys : (player_data.map Prod.fst).Nodup)
    (hcov : ∀ pick ∈ draft_picks, pick.id ∈ player_data.map Prod.fst) :
    ∃ m res, get_player_position_season_point_ranks player_data = some m ∧
      get_player_analysis draft_picks player_data = some res ∧
      List.Forall₂ (pickRel player_data m) draft_picks res ∧
      (∀ p : String,
        (res.filter (fun a => decide (a.position = p))).map PlayerAnalysis.draft_position_rank =
          List.range' 1 ((res.filter (fun a => decide (a.position = p))).length)) := by
  have hids : ((player_data.map Prod.snd).map YahooPlayerData.id).Nodup := by
    have heq : (player_data.map Prod.snd).map YahooPlayerData.id = player_data.map Prod.fst := by
      rw [List.map_map]
      exact List.map_congr_left (fun e he => hkeyid e he)
    rw [heq]; exact hkeys
  obtain ⟨m, hm, hdom, _, _⟩ := season_ranks_spec player_data hpos hids
  have hcov' : ∀ pick ∈ draft_picks,
      (alookup pick.id player_data).isSome ∧ (alookup pick.id m).isSome := by
    intro pick hpick
    have h1 : (alookup pick.id player_data).isSome := (alookup_isSome_iff _ _).2 (hcov pick hpick)
    obtain ⟨pd, hpd⟩ := Option.isSome_iff_exists.1 h1
    have hmem : (pick.id, pd) ∈ player_data := alookup_mem _ _ _ hpd
    have hpdid : pd.id = pick.id := hkeyid (pick.id, pd) hmem
    have hv : pd ∈ player_data.map Prod.snd := List.mem_map.2 ⟨(pick.id, pd), hmem, rfl⟩
    refine ⟨h1, ?_⟩
    rw [← hpdid, hdom pd hv]
    rfl
  obtain ⟨out, hrun, hrel, hdr⟩ := pickLoop_spec player_data m draft_picks [] [] hcov'
  refine ⟨m, out, hm, ?_, hrel, ?_⟩
  · simp only [get_player_analysis, hm]
    simpa using hrun
  · intro p
    have := hdr p
    simpa [alookup] using this

/-- C1: for every draft-pick list and stats mapping covering all drafted ids
(well-formed: distinct keys, id field equal to key, recognized positions),
`get_player_analysis` returns a list whose length equals the number of draft
picks, whose i-th element is derived from the i-th pick (same id, team_name,
first_name, last_name, overall_pick, with position and season_points taken
from the pick's stats entry), and whose differential equals
draft_position_rank minus season_end_position_rank as an exact integer
identity. -/
theorem claim_C1 (draft_picks : List DraftPick) (player_data : List (String × YahooPlayerData))
    (hkeyid : ∀ e ∈ player_data, (Prod.snd e).id = Prod.fst e)
    (hpos : ∀ e ∈ player_data, (Prod.snd e).position ∈ positions)
    (hkeys : (player_data.map Prod.fst).Nodup)
    (hcov : ∀ pick ∈ draft_picks, pick.id ∈ player_data.map Prod.fst) :
    ∃ res, get_player_analysis draft_picks player_data = some res ∧
      res.length = draft_picks.length ∧
      List.Forall₂ (fun (pick : DraftPick) (a : PlayerAnalysis) =>
        a.id = pick.id ∧ a.team_name = pick.team_name ∧ a.first_name = pick.first_name ∧
        a.last_name = pick.last_name ∧ a.overall_pick = pick.overall_pick ∧
        (∃ pd, alookup pick.id player_data = some pd ∧ a.position = pd.position ∧
          a.season_points = pd.season_points) ∧
        a.differential = (a.draft_position_rank : Int) - (a.season_end_position_rank : Int))
        draft_picks res := by
  obtain ⟨m, res, _, hres, hrel, _⟩ := analysis_spec draft_picks player_data hkeyid hpos hkeys hcov
  refine ⟨res, hres, (List.Forall₂.length_eq hrel).symm, ?_⟩
  refine hrel.imp (fun {pick a} h => ?_)
  exact ⟨h.1, h.2.1, h.2.2.1, h.2.2.2.1, h.2.2.2.2.1, h.2.2.2.2.2.1, h.2.2.2.2.2.2.2⟩

theorem claim_C1_witness :
    ∃ res, get_player_analysis
        [⟨"1", "A", "f", "l", 1⟩, ⟨"2", "A", "g", "m", 2⟩]
        [("1", ⟨"1", "QB", 300⟩), ("2", ⟨"2", "QB", 200⟩)] = some res ∧
      res.length = ([⟨"1", "A", "f", "l", 1⟩, ⟨"2", "A", "g", "m", 2⟩] : List DraftPick).length ∧
      List.Forall₂ (fun (pick : DraftPick) (a : PlayerAnalysis) =>
        a.id = pick.id ∧ a.team_name = pick.team_name ∧ a.first_name = pick.first_name ∧
        a.last_name = pick.last_name ∧ a.overall_pick = pick.overall_pick ∧
        (∃ pd, alookup pick.id ([("1", ⟨"1", "QB", 300⟩), ("2", ⟨"2", "QB", 200⟩)] :
            List (String × YahooPlayerData)) = some pd ∧
          a.position = pd.position ∧ a.season_points = pd.season_points) ∧
        a.differential = (a.draft_position_rank : Int) - (a.season_end_position_rank : Int))
        [⟨"1", "A", "f", "l", 1⟩, ⟨"2", "A", "g", "m", 2⟩] res :=
  claim_C1 [⟨"1", "A", "f", "l", 1⟩, ⟨"2", "A", "g", "m", 2⟩]
    [("1", ⟨"1", "QB", 300⟩), ("2", ⟨"2", "QB", 200⟩)]
    (by decide) (by decide) (by decide) (by decide)

/-- C2: on a well-formed stats mapping whose positions are all recognized,
for each position the ranks `_get_player_position_season_point_ranks` assigns
to that position's players form a permutation of `1..k` (`k` the number of
players of that position), every player gets a rank, and strictly more season
points means a strictly smaller rank. -/
theorem claim_C2 (player_data : List (String × YahooPlayerData))
    (hkeyid : ∀ e ∈ player_data, (Prod.snd e).id = Prod.fst e)
    (hkeys : (player_data.map Prod.fst).Nodup)
    (hpos : ∀ e ∈ player_data, (Prod.snd e).position ∈ positions) :
    ∃ m, get_player_position_season_point_ranks player_data = some m ∧
      (∀ q ∈ player_data.map Prod.snd, (alookup q.id m).isSome) ∧
      (∀ p : String, List.Perm
        (((player_data.map Prod.snd).filter (fun q => decide (q.position = p))).map
          (fun q => (alookup q.id m).getD 0))
        (List.range' 1
          (((player_data.map Prod.snd).filter (fun q => decide (q.position = p))).length))) ∧
      (∀ q1 ∈ player_data.map Prod.snd, ∀ q2 ∈ player_data.map Prod.snd,
        q1.position = q2.position → q2.season_points < q1.season_points →
        (alookup q1.id m).getD 0 < (alookup q2.id m).getD 0) := by
  have hids : ((player_data.map Prod.snd).map YahooPlayerData.id).Nodup := by
    have heq : (player_data.map Prod.snd).map YahooPlayerData.id = player_data.map Prod.fst := by
      rw [List.map_map]
      exact List.map_congr_left (fun e he => hkeyid e he)
    rw [heq]; exact hkeys
  obtain ⟨m, hm, hdom, hranges, hmono⟩ := season_ranks_spec player_data hpos hids
  refine ⟨m, hm, ?_, hranges, hmono⟩
  intro q hq
  rw [hdom q hq]
  rfl

theorem claim_C2_witness :
    ∃ m, get_player_position_season_point_ranks
        [("1", ⟨"1", "QB", 100⟩), ("2", ⟨"2", "QB", 400⟩), ("3", ⟨"3", "RB", 50⟩)] = some m ∧
      (∀ q ∈ ([("1", ⟨"1", "QB", 100⟩), ("2", ⟨"2", "QB", 400⟩), ("3", ⟨"3", "RB", 50⟩)] :
          List (String × YahooPlayerData)).map Prod.snd, (alookup q.id m).isSome) ∧
      (∀ p : String, List.Perm
        (((([("1", ⟨"1", "QB", 100⟩), ("2", ⟨"2", "QB", 400⟩), ("3", ⟨"3", "RB", 50⟩)] :
            List (String × YahooPlayerData)).map Prod.snd).filter
          (fun q => decide (q.position = p))).map (fun q => (alookup q.id m).getD 0))
        (List.range' 1
          (((([("1", ⟨"1", "QB", 100⟩), ("2", ⟨"2", "QB", 400⟩), ("3", ⟨"3", "RB", 50⟩)] :
            List (String × YahooPlayerData)).map Prod.snd).filter
            (fun q => decide (q.position = p))).length))) ∧
      (∀ q1 ∈ ([("1", ⟨"1", "QB", 100⟩), ("2", ⟨"2", "QB", 400⟩), ("3", ⟨"3", "RB", 50⟩)] :
          List (String × YahooPlayerData)).map Prod.snd,
        ∀ q2 ∈ ([("1", ⟨"1", "QB", 100⟩), ("2", ⟨"2", "QB", 400⟩), ("3", ⟨"3", "RB", 50⟩)] :
          List (String × YahooPlayerData)).map Prod.snd,
        q1.position = q2.position → q2.season_points < q1.season_points →
        (alookup q1.id m).getD 0 < (alookup q2.id m).getD 0) :=
  claim_C2 [("1", ⟨"1", "QB", 100⟩), ("2", ⟨"2", "QB", 400⟩), ("3", ⟨"3", "RB", 50⟩)]
    (by decide) (by decide) (by decide)

/-- C3: on the same well-formed inputs as C1, the draft ranks
`get_player_analysis` assigns to the drafted players of each position are, in
draft order, exactly `1, 2, ..., m` (`m` the number of drafted players at
that position): the j-th drafted player of a position gets draft rank j, and
the multiset of assigned ranks is a permutation of `1..m`. -/
theorem claim_C3 (draft_picks : List DraftPick) (player_data : List (String × YahooPlayerData))
    (hkeyid : ∀ e ∈ player_data, (Prod.snd e).id = Prod.fst e)
    (hpos : ∀ e ∈ player_data, (Prod.snd e).position ∈ positions)
    (hkeys : (player_data.map Prod.fst).Nodup)
    (hcov : ∀ pick ∈ draft_picks, pick.id ∈ player_data.map Prod.fst) :
    ∃ res, get_player_analysis draft_picks player_data = some res ∧
      (∀ p : String,
        (res.filter (fun a => decide (a.position = p))).map PlayerAnalysis.draft_position_rank =
          List.range' 1 ((res.filter (fun a => decide (a.position = p))).length)) ∧
      (∀ p : String, List.Perm
        ((res.filter (fun a => decide (a.position = p))).map PlayerAnalysis.draft_position_rank)
        (List.range' 1 ((res.filter (fun a => decide (a.position = p))).length))) := by
  obtain ⟨m, res, _, hres, _, hdr⟩ := analysis_spec draft_picks player_data hkeyid hpos hkeys hcov
  refine ⟨res, hres, hdr, fun p => ?_⟩
  rw [hdr p]

theorem claim_C3_witness :
    ∃ res, get_player_analysis
        [⟨"1", "A", "f", "l", 1⟩, ⟨"2", "B", "g", "m", 2⟩]
        [("1", ⟨"1", "QB", 100⟩), ("2", ⟨"2", "QB", 400⟩)] = some res ∧
      (∀ p : String,
        (res.filter (fun a => decide (a.position = p))).map PlayerAnalysis.draft_position_rank =
          List.range' 1 ((res.filter (fun a => decide (a.position = p))).length)) ∧
      (∀ p : String, List.Perm
        ((res.filter (fun a => decide (a.position = p))).map PlayerAnalysis.draft_position_rank)
        (List.range' 1 ((res.filter (fun a => decide (a.position = p))).length))) :=
  claim_C3 [⟨"1", "A", "f", "l", 1⟩, ⟨"2", "B", "g", "m", 2⟩]
    [("1", ⟨"1", "QB", 100⟩), ("2", ⟨"2", "QB", 400⟩)]
    (by decide) (by decide) (by decide) (by decide)

theorem pickLoop_none (player_data : List (String × YahooPlayerData)) (season_ranks : List (String × Nat)) :
    ∀ (picks : List DraftPick) (curr : List (String × Nat)) (acc : List PlayerAnalysis),
    (∃ pick ∈ picks, alookup pick.id player_data = none) →
    pickLoop player_data season_ranks picks curr acc = none := by
  intro picks
  induction picks with
  | nil =>
    intro curr acc h
    obtain ⟨pk, hpk, _⟩ := h
    exact absurd hpk (by simp)
  | cons pick rest ih =>
    intro curr acc h
    obtain ⟨pk, hpk, hnone⟩ := h
    cases h1 : alookup pick.id player_data with
    | none => simp [pickLoop, h1]
    | some pd =>
      have hpkrest : pk ∈ rest := by
        rcases List.mem_cons.1 hpk with heq | hmem
        · subst heq
          rw [h1] at hnone
          exact absurd hnone (by simp)
        · exact hmem
      cases h2 : alookup pick.id season_ranks with
      | none => simp [pickLoop, h1, h2]
      | some srank =>
        simp only [pickLoop, h1, h2]
        exact ih _ _ ⟨pk, hpkrest, hnone⟩

/-- C4: if the stats mapping is missing the id of some draft pick,
`get_player_analysis` fails with a lookup error (`none`), rather than
producing an analysis list with substituted defaults. -/
theorem claim_C4 (draft_picks : List DraftPick) (player_data : List (String × YahooPlayerData))
    (h : ∃ pick ∈ draft_picks, alookup pick.id player_data = none) :
    get_player_analysis draft_picks player_data = none := by
  cases hm : get_player_position_season_point_ranks player_data with
  | none => simp [get_player_analysis, hm]
  | some season_ranks =>
    simp only [get_player_analysis, hm]
    exact pickLoop_none player_data season_ranks draft_picks [] [] h

theorem claim_C4_witness :
    get_player_analysis [⟨"1", "A", "f", "l", 1⟩]
      [("2", ⟨"2", "QB", 10⟩)] = none :=
  claim_C4 [⟨"1", "A", "f", "l", 1⟩] [("2", ⟨"2", "QB", 10⟩)]
    ⟨⟨"1", "A", "f", "l", 1⟩, by decide, by decide⟩

theorem rankLoop_none (l : List YahooPlayerData) :
    ∀ (curr acc : List (String × Nat)),
    (∀ p : String, (alookup p curr).isSome ↔ p ∈ positions) →
    (∃ q ∈ l, q.position ∉ positions) →
    rankLoop l curr acc = none := by
  induction l with
  | nil =>
    intro curr acc _ h
    obtain ⟨q, hq, _⟩ := h
    exact absurd hq (by simp)
  | cons q rest ih =>
    intro curr acc hcurr h
    obtain ⟨q0, hq0, hbad⟩ := h
    cases hl : alookup q.position curr with
    | none => simp [rankLoop, hl]
    | some r =>
      have hqpos : q.position ∈ positions := by
        rw [← hcurr]
        rw [hl]
        rfl
      have hq0rest : q0 ∈ rest := by
        rcases List.mem_cons.1 hq0 with heq | hmem
        · subst heq; exact absurd hqpos hbad
        · exact hmem
      simp only [rankLoop, hl]
      refine ih _ _ ?_ ⟨q0, hq0rest, hbad⟩
      intro p
      rw [alookup_aset_isSome]
      constructor
      · rintro (rfl | hs)
        · exact hqpos
        · exact (hcurr p).1 hs
      · intro hp
        exact Or.inr ((hcurr p).2 hp)

/-- C7: if some stats entry carries a position outside
QB, RB, WR, TE, K, DEF, the season-rank computation fails fatally (there is
no counter bucket to receive it), and consequently `get_player_analysis`
signals the error instead of producing output. -/
theorem claim_C7 (draft_picks : List DraftPick) (player_data : List (String × YahooPlayerData))
    (h : ∃ e ∈ player_data, (Prod.snd e).position ∉ positions) :
    get_player_position_season_point_ranks player_data = none ∧
    get_player_analysis draft_picks player_data = none := by
  obtain ⟨e, he, hbad⟩ := h
  have hv : Prod.snd e ∈ player_data.map Prod.snd := List.mem_map.2 ⟨e, he, rfl⟩
  have hs : Prod.snd e ∈ sortPlayersByPoints (player_data.map Prod.snd) :=
    (sortPlayersByPoints_perm _).mem_iff.2 hv
  have hinit : ∀ p : String, (alookup p initRanks).isSome ↔ p ∈ positions := by
    intro p
    rw [alookup_isSome_iff]
    exact Iff.rfl
  have hnone : get_player_position_season_point_ranks player_data = none := by
    simp only [get_player_position_season_point_ranks]
    exact rankLoop_none _ _ _ hinit ⟨Prod.snd e, hs, hbad⟩
  exact ⟨hnone, by simp [get_player_analysis, hnone]⟩

theorem claim_C7_witness :
    get_player_position_season_point_ranks [("1", ⟨"1", "FLEX", 10⟩)] = none ∧
    get_player_analysis [⟨"1", "A", "f", "l", 1⟩] [("1", ⟨"1", "FLEX", 10⟩)] = none :=
  claim_C7 [⟨"1", "A", "f", "l", 1⟩] [("1", ⟨"1", "FLEX", 10⟩)]
    ⟨("1", ⟨"1", "FLEX", 10⟩), by decide, by decide⟩

/-- C9: serializing a `YahooPlayerData` with `to_json` and deserializing with
`from_json_string` round-trips to the same value (same id, position,
season_points). -/
theorem claim_C9 (p : YahooPlayerData) :
    YahooPlayerData.from_json_string (YahooPlayerData.to_json p) = some p := by
  cases p with
  | mk i pos pts =>
    simp [YahooPlayerData.to_json, YahooPlayerData.from_json_string, alookup]

theorem mem_aset {β : Type} (k : String) (v : β) :
    ∀ (m : List (String × β)) (e : String × β), e ∈ aset k v m → e = (k, v) ∨ e ∈ m := by
  intro m
  induction m with
  | nil => intro e he; simpa [aset] using he
  | cons p rest ih =>
    intro e he
    by_cases hp : p.1 = k
    · simp only [aset, if_pos hp] at he
      rcases List.mem_cons.1 he with h | h
      · exact Or.inl h
      · exact Or.inr (List.mem_cons_of_mem _ h)
    · simp only [aset, if_neg hp] at he
      rcases List.mem_cons.1 he with h | h
      · exact Or.inr (h ▸ List.mem_cons_self _ _)
      · rcases ih e h with h' | h'
        · exact Or.inl h'
        · exact Or.inr (List.mem_cons_of_mem _ h')

theorem flatten_addToTeam (a : PlayerAnalysis) :
    ∀ (m : List (String × List PlayerAnalysis)),
    List.Perm (((addToTeam m a).map Prod.snd).flatten) (((m.map Prod.snd).flatten) ++ [a]) := by
  intro m
  induction m with
  | nil => simp [addToTeam, aset, alookup]
  | cons p rest ih =>
    by_cases hp : p.1 = a.team_name
    · simp only [addToTeam, alookup, aset, if_pos hp, List.map_cons, List.flatten_cons,
        Option.getD_some]
      rw [List.append_assoc, List.append_assoc]
      exact List.Perm.append_left p.2 List.perm_append_comm
    · simp only [addToTeam, alookup, aset, if_neg hp, List.map_cons, List.flatten_cons]
      rw [List.append_assoc]
      exact List.Perm.append_left p.2 (by simpa [addToTeam] using ih)

theorem addToTeam_fold_spec :
    ∀ (l : List PlayerAnalysis) (m : List (String × List PlayerAnalysis)),
    ((m.map Prod.fst).Nodup) →
    (∀ e ∈ m, ∀ a ∈ Prod.snd e, a.team_name = Prod.fst e) →
    (((l.foldl addToTeam m).map Prod.fst).Nodup ∧
      (∀ e ∈ l.foldl addToTeam m, ∀ a ∈ Prod.snd e, a.team_name = Prod.fst e) ∧
      List.Perm (((l.foldl addToTeam m).map Prod.snd).flatten) ((m.map Prod.snd).flatten ++ l)) := by
  intro l
  induction l with
  | nil =>
    intro m hnd hlab
    exact ⟨hnd, hlab, by simp⟩
  | cons a l ih =>
    intro m hnd hlab
    have hnd' : (((addToTeam m a).map Prod.fst).Nodup) := nodup_keys_aset _ _ _ hnd
    have hlab' : ∀ e ∈ addToTeam m a, ∀ x ∈ Prod.snd e, x.team_name = Prod.fst e := by
      intro e he x hx
      rcases mem_aset _ _ _ _ he with h | h
      · subst h
        simp only at hx ⊢
        rcases List.mem_append.1 hx with h' | h'
        · cases hold : alookup a.team_name m with
          | none => rw [hold] at h'; simp at h'
          | some old =>
            rw [hold] at h'
            simp only [Option.getD_some] at h'
            exact hlab (a.team_name, old) (alookup_mem _ _ _ hold) x h'
        · simp only [List.mem_singleton] at h'
          subst h'
          rfl
      · exact hlab e h x hx
    obtain ⟨h1, h2, h3⟩ := ih (addToTeam m a) hnd' hlab'
    refine ⟨by simpa using h1, by simpa using h2, ?_⟩
    refine List.Perm.trans (by simpa using h3) ?_
    refine List.Perm.trans (List.Perm.append_right l (flatten_addToTeam a m)) ?_
    rw [List.append_assoc]
    simp

theorem get_players_by_team_keys (players : List PlayerAnalysis) :
    (get_players_by_team players).map Prod.fst = (players.foldl addToTeam []).map Prod.fst := by
  simp only [get_players_by_team, List.map_map]
  rfl

/-- C5: `get_players_by_team` produces a lossless, non-overlapping partition:
team keys are distinct, the concatenation of all team lists is a permutation
of the input (so every player appears exactly once overall), every player
sits in the list keyed by their own team_name, and each team's list is
sorted by overall_pick ascending. -/
theorem claim_C5 (players : List PlayerAnalysis) :
    ((get_players_by_team players).map Prod.fst).Nodup ∧
    List.Perm (((get_players_by_team players).map Prod.snd).flatten) players ∧
    (∀ e ∈ get_players_by_team players, ∀ a ∈ Prod.snd e, a.team_name = Prod.fst e) ∧
    (∀ a ∈ players, ∃ l, alookup a.team_name (get_players_by_team players) = some l ∧ a ∈ l) ∧
    (∀ e ∈ get_players_by_team players,
      (Prod.snd e).Pairwise (fun x y => x.overall_pick ≤ y.overall_pick)) := by
  obtain ⟨hnd, hlab, hflat⟩ :=
    addToTeam_fold_spec players [] (by simp) (by simp)
  have hkeys : ((get_players_by_team players).map Prod.fst).Nodup := by
    rw [get_players_by_team_keys]; exact hnd
  have hmemsort : ∀ e ∈ get_players_by_team players,
      ∃ e0 ∈ players.foldl addToTeam [], Prod.fst e = Prod.fst e0 ∧
        Prod.snd e = (Prod.snd e0).mergeSort (fun x y => decide (x.overall_pick ≤ y.overall_pick)) := by
    intro e he
    simp only [get_players_by_team, List.mem_map] at he
    obtain ⟨e0, he0, rfl⟩ := he
    exact ⟨e0, he0, rfl, rfl⟩
  have hlab' : ∀ e ∈ get_players_by_team players, ∀ a ∈ Prod.snd e, a.team_name = Prod.fst e := by
    intro e he a ha
    obtain ⟨e0, he0, hfst, hsnd⟩ := hmemsort e he
    rw [hsnd] at ha
    rw [hfst]
    exact hlab e0 he0 a (List.mem_mergeSort.1 ha)
  have hperm : List.Perm (((get_players_by_team players).map Prod.snd).flatten) players := by
    have hf2 : List.Forall₂ List.Perm ((get_players_by_team players).map Prod.snd)
        ((players.foldl addToTeam []).map Prod.snd) := by
      simp only [get_players_by_team, List.map_map]
      rw [List.forall₂_map_left_iff, List.forall₂_map_right_iff]
      refine List.forall₂_same.2 (fun e _ => ?_)
      exact List.mergeSort_perm _ _
    refine List.Perm.trans (List.Perm.flatten_congr hf2) ?_
    simpa using hflat
  refine ⟨hkeys, hperm, hlab', ?_, ?_⟩
  · intro a ha
    have : a ∈ ((get_players_by_team players).map Prod.snd).flatten := hperm.mem_iff.2 ha
    obtain ⟨s, hs, has⟩ := List.mem_flatten.1 this
    obtain ⟨e, he, rfl⟩ := List.mem_map.1 hs
    have hteam : a.team_name = Prod.fst e := hlab' e he a has
    refine ⟨Prod.snd e, ?_, has⟩
    rw [hteam]
    have : (Prod.fst e, Prod.snd e) ∈ get_players_by_team players := by simpa using he
    exact alookup_of_mem_nodup _ _ _ this hkeys
  · intro e he
    obtain ⟨e0, _, _, hsnd⟩ := hmemsort e he
    rw [hsnd]
    have h := @List.sorted_mergeSort PlayerAnalysis
      (fun x y => decide (x.overall_pick ≤ y.overall_pick)) ?_ ?_ (Prod.snd e0)
    · exact h.imp (fun {x y} hxy => by simpa using hxy)
    · intro x y z hxy hyz
      simp only [decide_eq_true_eq] at *
      exact le_trans hxy hyz
    · intro x y
      simp only [Bool.or_eq_true, decide_eq_true_eq]
      exact le_total _ _

theorem claim_C5_witness :
    ((get_players_by_team [⟨"1", "A", "f", "l", "QB", 2, 10, 1, 1, 0⟩,
        ⟨"2", "B", "g", "m", "RB", 1, 20, 1, 2, -1⟩,
        ⟨"3", "A", "h", "n", "WR", 3, 30, 1, 1, 0⟩]).map Prod.fst).Nodup ∧
    List.Perm (((get_players_by_team [⟨"1", "A", "f", "l", "QB", 2, 10, 1, 1, 0⟩,
        ⟨"2", "B", "g", "m", "RB", 1, 20, 1, 2, -1⟩,
        ⟨"3", "A", "h", "n", "WR", 3, 30, 1, 1, 0⟩]).map Prod.snd).flatten)
      [⟨"1", "A", "f", "l", "QB", 2, 10, 1, 1, 0⟩,
       ⟨"2", "B", "g", "m", "RB", 1, 20, 1, 2, -1⟩,
       ⟨"3", "A", "h", "n", "WR", 3, 30, 1, 1, 0⟩] ∧
    (∀ e ∈ get_players_by_team [⟨"1", "A", "f", "l", "QB", 2, 10, 1, 1, 0⟩,
        ⟨"2", "B", "g", "m", "RB", 1, 20, 1, 2, -1⟩,
        ⟨"3", "A", "h", "n", "WR", 3, 30, 1, 1, 0⟩], ∀ a ∈ Prod.snd e, a.team_name = Prod.fst e) ∧
    (∀ a ∈ [⟨"1", "A", "f", "l", "QB", 2, 10, 1, 1, 0⟩,
        ⟨"2", "B", "g", "m", "RB", 1, 20, 1, 2, -1⟩,
        ⟨"3", "A", "h", "n", "WR", 3, 30, 1, 1, 0⟩],
      ∃ l, alookup a.team_name (get_players_by_team [⟨"1", "A", "f", "l", "QB", 2, 10, 1, 1, 0⟩,
        ⟨"2", "B", "g", "m", "RB", 1, 20, 1, 2, -1⟩,
        ⟨"3", "A", "h", "n", "WR", 3, 30, 1, 1, 0⟩]) = some l ∧ a ∈ l) ∧
    (∀ e ∈ get_players_by_team [⟨"1", "A", "f", "l", "QB", 2, 10, 1, 1, 0⟩,
        ⟨"2", "B", "g", "m", "RB", 1, 20, 1, 2, -1⟩,
        ⟨"3", "A", "h", "n", "WR", 3, 30, 1, 1, 0⟩],
      (Prod.snd e).Pairwise (fun x y => x.overall_pick ≤ y.overall_pick)) :=
  claim_C5 [⟨"1", "A", "f", "l", "QB", 2, 10, 1, 1, 0⟩,
    ⟨"2", "B", "g", "m", "RB", 1, 20, 1, 2, -1⟩,
    ⟨"3", "A", "h", "n", "WR", 3, 30, 1, 1, 0⟩]

theorem addDiff_fold_lookup :
    ∀ (l : List PlayerAnalysis) (m : List (String × Int)) (t : String),
    ((alookup t m).isSome ∨ t ∈ l.map PlayerAnalysis.team_name) →
    alookup t (l.foldl addDiff m) =
      some ((alookup t m).getD 0 +
        ((l.filter (fun a => decide (a.team_name = t))).map PlayerAnalysis.differential).sum) := by
  intro l
  induction l with
  | nil =>
    intro m t ht
    rcases ht with hs | hmem
    · obtain ⟨v, hv⟩ := Option.isSome_iff_exists.1 hs
      simp [hv]
    · exact absurd hmem (by simp)
  | cons a l ih =>
    intro m t ht
    by_cases hat : a.team_name = t
    · have hstep : alookup t (addDiff m a) =
          some ((alookup t m).getD 0 + a.differential) := by
        simp only [addDiff, ← hat]
        exact alookup_aset_self _ _ _
      have hrec := ih (addDiff m a) t (Or.inl (by rw [hstep]; rfl))
      simp only [List.foldl_cons]
      rw [hrec, hstep]
      have hfil : List.filter (fun x => decide (x.team_name = t)) (a :: l) =
          a :: List.filter (fun x => decide (x.team_name = t)) l := by
        simp [List.filter_cons, hat]
      rw [hfil]
      simp only [List.map_cons, List.sum_cons, Option.getD_some]
      congr 1
      ring
    · have hstep : alookup t (addDiff m a) = alookup t m := by
        simp only [addDiff]
        exact alookup_aset_ne _ _ _ _ (fun h => hat h.symm)
      have hmem' : (alookup t (addDiff m a)).isSome ∨ t ∈ l.map PlayerAnalysis.team_name := by
        rcases ht with hs | hmem
        · exact Or.inl (by rw [hstep]; exact hs)
        · simp only [List.map_cons, List.mem_cons] at hmem
          rcases hmem with h | h
          · exact absurd h.symm hat
          · exact Or.inr h
      have hrec := ih (addDiff m a) t hmem'
      simp only [List.foldl_cons]
      rw [hrec, hstep]
      have hfil : List.filter (fun x => decide (x.team_name = t)) (a :: l) =
          List.filter (fun x => decide (x.team_name = t)) l := by
        simp [List.filter_cons, hat]
      rw [hfil]

/-- C6: for every team name occurring among the analyzed players, the value
`get_team_differentials` assigns to that team equals the arithmetic sum of
the differential fields of exactly that team's players. -/
theorem claim_C6 (players : List PlayerAnalysis) (t : String)
    (ht : t ∈ players.map PlayerAnalysis.team_name) :
    alookup t (get_team_differentials players) =
      some (((players.filter (fun a => decide (a.team_name = t))).map
        PlayerAnalysis.differential).sum) := by
  have := addDiff_fold_lookup players [] t (Or.inr ht)
  simp only [get_team_differentials]
  rw [this]
  simp [alookup]

theorem claim_C6_witness :
    alookup "A" (get_team_differentials
      [⟨"1", "A", "f", "l", "QB", 1, 10, 1, 2, -1⟩,
       ⟨"2", "B", "g", "m", "RB", 2, 20, 1, 1, 0⟩,
       ⟨"3", "A", "h", "n", "WR", 3, 30, 1, 5, -4⟩]) =
      some ((([⟨"1", "A", "f", "l", "QB", 1, 10, 1, 2, -1⟩,
        ⟨"2", "B", "g", "m", "RB", 2, 20, 1, 1, 0⟩,
        ⟨"3", "A", "h", "n", "WR", 3, 30, 1, 5, -4⟩] : List PlayerAnalysis).filter
          (fun a => decide (a.team_name = "A"))).map PlayerAnalysis.differential).sum :=
  claim_C6 [⟨"1", "A", "f", "l", "QB", 1, 10, 1, 2, -1⟩,
    ⟨"2", "B", "g", "m", "RB", 2, 20, 1, 1, 0⟩,
    ⟨"3", "A", "h", "n", "WR", 3, 30, 1, 5, -4⟩] "A" (by decide)

theorem addDiff_fold_none :
    ∀ (l : List PlayerAnalysis) (m : List (String × Int)) (t : String),
    alookup t m = none → t ∉ l.map PlayerAnalysis.team_name →
    alookup t (l.foldl addDiff m) = none := by
  intro l
  induction l with
  | nil => intro m t hm _; simpa using hm
  | cons a l ih =>
    intro m t hm ht
    simp only [List.map_cons, List.mem_cons] at ht
    push_neg at ht
    have hstep : alookup t (addDiff m a) = none := by
      simp only [addDiff]
      rw [alookup_aset_ne _ _ _ _ ht.1]
      exact hm
    simp only [List.foldl_cons]
    exact ih _ _ hstep ht.2

theorem addToTeam_fold_none :
    ∀ (l : List PlayerAnalysis) (m : List (String × List PlayerAnalysis)) (t : String),
    alookup t m = none → t ∉ l.map PlayerAnalysis.team_name →
    alookup t (l.foldl addToTeam m) = none := by
  intro l
  induction l with
  | nil => intro m t hm _; simpa using hm
  | cons a l ih =>
    intro m t hm ht
    simp only [List.map_cons, List.mem_cons] at ht
    push_neg at ht
    have hstep : alookup t (addToTeam m a) = none := by
      simp only [addToTeam]
      rw [alookup_aset_ne _ _ _ _ ht.1]
      exact hm
    simp only [List.foldl_cons]
    exact ih _ _ hstep ht.2

/-- C10: looking up a team with no players yields the defaultdict defaults:
0 from the mapping returned by `get_team_differentials` and the empty list
from the mapping returned by `get_players_by_team`; neither lookup is a
missing-key error. -/
theorem claim_C10 (players : List PlayerAnalysis) (t : String)
    (ht : t ∉ players.map PlayerAnalysis.team_name) :
    defaultdictGetInt (get_team_differentials players) t = 0 ∧
    defaultdictGetList (get_players_by_team players) t = [] := by
  constructor
  · have := addDiff_fold_none players [] t (by simp [alookup]) ht
    simp only [defaultdictGetInt, get_team_differentials]
    rw [this]
    rfl
  · have hbuild := addToTeam_fold_none players [] t (by simp [alookup]) ht
    have hkeys := get_players_by_team_keys players
    have : alookup t (get_players_by_team players) = none := by
      rw [alookup_eq_none_iff, hkeys, ← alookup_eq_none_iff]
      exact hbuild
    simp only [defaultdictGetList]
    rw [this]
    rfl

theorem claim_C10_witness :
    defaultdictGetInt (get_team_differentials
      [⟨"1", "A", "f", "l", "QB", 1, 10, 1, 2, -1⟩]) "Z" = 0 ∧
    defaultdictGetList (get_players_by_team
      [⟨"1", "A", "f", "l", "QB", 1, 10, 1, 2, -1⟩]) "Z" = [] :=
  claim_C10 [⟨"1", "A", "f", "l", "QB", 1, 10, 1, 2, -1⟩] "Z" (by decide)

theorem addDiff_values_sum (a : PlayerAnalysis) :
    ∀ (m : List (String × Int)),
    ((addDiff m a).map Prod.snd).sum = (m.map Prod.snd).sum + a.differential := by
  intro m
  induction m with
  | nil => simp [addDiff, aset, alookup]
  | cons p rest ih =>
    by_cases hp : p.1 = a.team_name
    · simp only [addDiff, alookup, aset, if_pos hp, List.map_cons, List.sum_cons,
        Option.getD_some]
      ring
    · simp only [addDiff, alookup, aset, if_neg hp, List.map_cons, List.sum_cons] at ih ⊢
      rw [ih]
      ring

theorem addDiff_fold_values_sum :
    ∀ (l : List PlayerAnalysis) (m : List (String × Int)),
    ((l.foldl addDiff m).map Prod.snd).sum =
      (m.map Prod.snd).sum + (l.map PlayerAnalysis.differential).sum := by
  intro l
  induction l with
  | nil => intro m; simp
  | cons a l ih =>
    intro m
    simp only [List.foldl_cons, List.map_cons, List.sum_cons]
    rw [ih (addDiff m a), addDiff_values_sum]
    ring

theorem teamdiff_values_sum (players : List PlayerAnalysis) :
    ((get_team_differentials players).map Prod.snd).sum =
      (players.map PlayerAnalysis.differential).sum := by
  simp only [get_team_differentials]
  rw [addDiff_fold_values_sum]
  simp

theorem sum_diff_split (res : List PlayerAnalysis)
    (h : ∀ a ∈ res, a.differential =
      (a.draft_position_rank : Int) - (a.season_end_position_rank : Int)) :
    (res.map PlayerAnalysis.differential).sum =
      (res.map (fun a => (a.draft_position_rank : Int))).sum -
      (res.map (fun a => (a.season_end_position_rank : Int))).sum := by
  induction res with
  | nil => simp
  | cons a l ih =>
    simp only [List.map_cons, List.sum_cons]
    rw [h a (List.mem_cons_self _ _), ih (fun x hx => h x (List.mem_cons_of_mem _ hx))]
    ring

theorem sum_map_add_int {γ : Type} (P : List γ) (g h : γ → Int) :
    (P.map (fun p => g p + h p)).sum = (P.map g).sum + (P.map h).sum := by
  induction P with
  | nil => simp
  | cons p rest ih =>
    simp only [List.map_cons, List.sum_cons]
    rw [ih]
    ring

theorem sum_ite_not_mem (c : Int) (x : String) :
    ∀ (P : List String), x ∉ P → (P.map (fun p => if x = p then c else 0)).sum = 0 := by
  intro P
  induction P with
  | nil => intro _; simp
  | cons p rest ih =>
    intro hx
    simp only [List.mem_cons] at hx
    push_neg at hx
    simp only [List.map_cons, List.sum_cons, if_neg hx.1, ih hx.2]
    ring

theorem sum_ite_single (c : Int) (x : String) :
    ∀ (P : List String), P.Nodup → x ∈ P →
    (P.map (fun p => if x = p then c else 0)).sum = c := by
  intro P
  induction P with
  | nil => intro _ hx; exact absurd hx (by simp)
  | cons p rest ih =>
    intro hnd hx
    simp only [List.nodup_cons] at hnd
    rcases List.mem_cons.1 hx with h | h
    · subst h
      simp [sum_ite_not_mem _ _ _ hnd.1]
    · have hxp : x ≠ p := fun hh => hnd.1 (hh ▸ h)
      simp only [List.map_cons, List.sum_cons, if_neg hxp, ih hnd.2 h]
      ring

theorem sum_partition {α : Type} (key : α → String) (f : α → Int) (P : List String)
    (hP : P.Nodup) :
    ∀ (l : List α), (∀ a ∈ l, key a ∈ P) →
    (l.map f).sum =
      (P.map (fun p => ((l.filter (fun a => decide (key a = p))).map f).sum)).sum := by
  intro l
  induction l with
  | nil => intro _; simp
  | cons a l ih =>
    intro hmem
    have hstep : P.map (fun p => ((List.filter (fun x => decide (key x = p)) (a :: l)).map f).sum) =
        P.map (fun p => (if key a = p then f a else 0) +
          ((List.filter (fun x => decide (key x = p)) l).map f).sum) := by
      refine List.map_congr_left (fun p _ => ?_)
      by_cases hk : key a = p
      · simp [List.filter_cons, hk]
      · simp [List.filter_cons, hk]
    rw [hstep, sum_map_add_int, sum_ite_single _ _ _ hP (hmem a (List.mem_cons_self _ _)),
      ← ih (fun x hx => hmem x (List.mem_cons_of_mem _ hx))]
    simp

theorem sum_map_cast {α : Type} (l : List α) (g : α → Nat) :
    (l.map (fun a => ((g a : Nat) : Int))).sum = (((l.map g).sum : Nat) : Int) := by
  induction l with
  | nil => simp
  | cons a l ih =>
    simp only [List.map_cons, List.sum_cons, Nat.cast_add]
    rw [ih]

/-- C8: when the stats mapping's key set is exactly the set of drafted ids
(each drafted id occurring in exactly one pick) and the stats are
well-formed, the sum over all teams of the values returned by
`get_team_differentials` is 0: per position, draft ranks and season ranks
are both permutations of the same set `1..k`. -/
theorem claim_C8 (draft_picks : List DraftPick) (player_data : List (String × YahooPlayerData))
    (hkeyid : ∀ e ∈ player_data, (Prod.snd e).id = Prod.fst e)
    (hpos : ∀ e ∈ player_data, (Prod.snd e).position ∈ positions)
    (hkeys : (player_data.map Prod.fst).Nodup)
    (hpicks : (draft_picks.map DraftPick.id).Nodup)
    (hsame : ∀ i : String, i ∈ player_data.map Prod.fst ↔ i ∈ draft_picks.map DraftPick.id) :
    ∃ res, get_player_analysis draft_picks player_data = some res ∧
      ((get_team_differentials res).map Prod.snd).sum = 0 := by
  have hcov : ∀ pick ∈ draft_picks, pick.id ∈ player_data.map Prod.fst := by
    intro pick hpick
    exact (hsame pick.id).2 (List.mem_map.2 ⟨pick, hpick, rfl⟩)
  have hids : ((player_data.map Prod.snd).map YahooPlayerData.id).Nodup := by
    have heq : (player_data.map Prod.snd).map YahooPlayerData.id = player_data.map Prod.fst := by
      rw [List.map_map]
      exact List.map_congr_left (fun e he => hkeyid e he)
    rw [heq]; exact hkeys
  have hvalpos : ∀ q ∈ player_data.map Prod.snd, q.position ∈ positions := by
    intro q hq
    obtain ⟨e, he, rfl⟩ := List.mem_map.1 hq
    exact hpos e he
  obtain ⟨m, hm, hdom, hranges_m, _⟩ := season_ranks_spec player_data hpos hids
  obtain ⟨m', res, hm', hres, hrel, hdr⟩ :=
    analysis_spec draft_picks player_data hkeyid hpos hkeys hcov
  have hmm : m = m' := Option.some.inj (hm.symm.trans hm')
  subst hmm
  have hpermkeys : List.Perm (player_data.map Prod.fst) (draft_picks.map DraftPick.id) :=
    (List.perm_ext_iff_of_nodup hkeys hpicks).2 hsame
  refine ⟨res, hres, ?_⟩
  rw [teamdiff_values_sum]
  have hdiff : ∀ a ∈ res, a.differential =
      (a.draft_position_rank : Int) - (a.season_end_position_rank : Int) := by
    intro a ha
    obtain ⟨pick, _, hr⟩ := forall₂_mem_right hrel a ha
    exact hr.2.2.2.2.2.2.2
  rw [sum_diff_split res hdiff]
  have hrespos : ∀ a ∈ res, a.position ∈ positions := by
    intro a ha
    obtain ⟨pick, _, hr⟩ := forall₂_mem_right hrel a ha
    obtain ⟨pd, hpd, hap, _⟩ := hr.2.2.2.2.2.1
    have hmem := alookup_mem _ _ _ hpd
    have hv : pd ∈ player_data.map Prod.snd := List.mem_map.2 ⟨(pick.id, pd), hmem, rfl⟩
    rw [hap]
    exact hvalpos pd hv
  have hdraft : (res.map (fun a => (a.draft_position_rank : Int))).sum =
      (positions.map (fun p =>
        (((List.range' 1 ((res.filter (fun a => decide (a.position = p))).length)).sum : Nat) : Int))).sum := by
    rw [sum_partition PlayerAnalysis.position (fun a => (a.draft_position_rank : Int))
      positions (by decide) res hrespos]
    refine congrArg List.sum (List.map_congr_left (fun p _ => ?_))
    rw [sum_map_cast _ PlayerAnalysis.draft_position_rank, hdr p]
  have hseason : res.map (fun a => (a.season_end_position_rank : Int)) =
      draft_picks.map (fun pk => ((alookup pk.id m).getD 0 : Int)) := by
    refine forall₂_map_eq _ _ hrel (fun pick a hr => ?_)
    rw [hr.2.2.2.2.2.2.1]
    rfl
  have hseason2 : (draft_picks.map (fun pk => ((alookup pk.id m).getD 0 : Int))).sum =
      ((player_data.map Prod.fst).map (fun i => ((alookup i m).getD 0 : Int))).sum := by
    have h1 : draft_picks.map (fun pk => ((alookup pk.id m).getD 0 : Int)) =
        (draft_picks.map DraftPick.id).map (fun i => ((alookup i m).getD 0 : Int)) := by
      rw [List.map_map]
      rfl
    rw [h1]
    exact (List.Perm.sum_eq (hpermkeys.map _)).symm
  have hseason3 : (player_data.map Prod.fst).map (fun i => ((alookup i m).getD 0 : Int)) =
      (player_data.map Prod.snd).map (fun q => ((alookup q.id m).getD 0 : Int)) := by
    rw [List.map_map, List.map_map]
    refine List.map_congr_left (fun e he => ?_)
    simp only [Function.comp_apply]
    rw [hkeyid e he]
  have hseason4 : ((player_data.map Prod.snd).map (fun q => ((alookup q.id m).getD 0 : Int))).sum =
      (positions.map (fun p =>
        (((List.range' 1 (((player_data.map Prod.snd).filter
          (fun q => decide (q.position = p))).length)).sum : Nat) : Int))).sum := by
    rw [sum_partition YahooPlayerData.position (fun q => ((alookup q.id m).getD 0 : Int))
      positions (by decide) (player_data.map Prod.snd) hvalpos]
    refine congrArg List.sum (List.map_congr_left (fun p _ => ?_))
    rw [sum_map_cast _ (fun q : YahooPlayerData => (alookup q.id m).getD 0)]
    exact congrArg _ (List.Perm.sum_eq (hranges_m p))
  have hlens : ∀ p : String, (res.filter (fun a => decide (a.position = p))).length =
      ((player_data.map Prod.snd).filter (fun q => decide (q.position = p))).length := by
    have h1 : res.map PlayerAnalysis.position =
        draft_picks.map (fun pk =>
          ((alookup pk.id player_data).map YahooPlayerData.position).getD "") := by
      refine forall₂_map_eq _ _ hrel (fun pick a hr => ?_)
      obtain ⟨pd, hpd, hap, _⟩ := hr.2.2.2.2.2.1
      rw [hap, hpd]
      rfl
    have h2 : draft_picks.map (fun pk =>
          ((alookup pk.id player_data).map YahooPlayerData.position).getD "") =
        (draft_picks.map DraftPick.id).map (fun i =>
          ((alookup i player_data).map YahooPlayerData.position).getD "") := by
      rw [List.map_map]
      rfl
    have h3 : (player_data.map Prod.fst).map (fun i =>
          ((alookup i player_data).map YahooPlayerData.position).getD "") =
        (player_data.map Prod.snd).map YahooPlayerData.position := by
      rw [List.map_map, List.map_map]
      refine List.map_congr_left (fun e he => ?_)
      simp only [Function.comp_apply]
      rw [alookup_of_mem_nodup e.1 e.2 player_data (by simpa using he) hkeys]
      rfl
    have hposmap : List.Perm (res.map PlayerAnalysis.position)
        ((player_data.map Prod.snd).map YahooPlayerData.position) := by
      rw [h1, h2, ← h3]
      exact (hpermkeys.map _).symm
    intro p
    rw [← List.countP_eq_length_filter, ← List.countP_eq_length_filter]
    have hc := hposmap.countP_eq (fun s => decide (s = p))
    rw [List.countP_map, List.countP_map] at hc
    exact hc
  have hfinal : positions.map (fun p =>
      (((List.range' 1 ((res.filter (fun a => decide (a.position = p))).length)).sum : Nat) : Int)) =
      positions.map (fun p =>
      (((List.range' 1 (((player_data.map Prod.snd).filter
        (fun q => decide (q.position = p))).length)).sum : Nat) : Int)) :=
    List.map_congr_left (fun p _ => by rw [hlens p])
  rw [hdraft, hseason, hseason2, hseason3, hseason4, hfinal, sub_self]

theorem claim_C8_witness :
    ∃ res, get_player_analysis
        [⟨"1", "A", "f", "l", 1⟩, ⟨"2", "B", "g", "m", 2⟩]
        [("1", ⟨"1", "QB", 100⟩), ("2", ⟨"2", "QB", 400⟩)] = some res ∧
      ((get_team_differentials res).map Prod.snd).sum = 0 :=
  claim_C8 [⟨"1", "A", "f", "l", 1⟩, ⟨"2", "B", "g", "m", 2⟩]
    [("1", ⟨"1", "QB", 100⟩), ("2", ⟨"2", "QB", 400⟩)]
    (by decide) (by decide) (by decide) (by decide) (fun i => Iff.rfl)

theorem claim_C9_witness :
    YahooPlayerData.from_json_string (YahooPlayerData.to_json ⟨"p1", "QB", 3⟩) =
      some ⟨"p1", "QB", 3⟩ :=
  claim_C9 ⟨"p1", "QB", 3⟩
